import Mathlib

/-!
Verification of the system-stats service
(`src/server/app/service/system-stats/system-stats.service.ts`).

Shallow embedding conventions:
* JS numbers are idealized as exact rationals (`ℚ`); `x.toFixed(3)` followed
  by `parseFloat` is modelled as rounding to the nearest multiple of 1/1000,
  ties toward +∞, which is what `toFixed` specifies on exact decimal inputs.
* A JS object iterated with `for..in` (insertion order, unique keys) and a JS
  `Map` (insertion order, `set` keeps the position of an existing key) are both
  modelled as association lists `List (String × α)` where `oensure` appends a
  fresh key at the end and `oupdate` updates the first occurrence in place.
* A possibly-absent numeric field is `Option ℚ`; the JS `info.rpm || 0`
  coercion is `Option.getD · 0`.
* The two external collaborators (snapshot repository, system-info service)
  are parameters: the query engine takes the repository's answers as inputs,
  and ingestion's two writes are modelled by an explicit write trace whose
  outcomes are supplied as `Except` values.
-/

namespace Overwatch

/-- Leaf of the raw traffic report: `{rpm?, fpm?}`, both fields optional. -/
structure HostStat where
  rpm : Option ℚ
  fpm : Option ℚ
deriving DecidableEq, Repr

/-- The three-level report `source-system → target-system → host → HostStat`,
as insertion-ordered association lists (JS object key order). -/
def TrafficReport : Type :=
  List (String × List (String × List (String × HostStat)))

/-- The `ServerInfo` accumulator from the source: per-host `{rpm, fpm}`. -/
structure ServerInfo where
  rpm : ℚ
  fpm : ℚ
deriving DecidableEq, Repr

/-- The `SystemInfo` accumulator from the source: per-system totals plus the
per-host sub-accumulator map. -/
structure SystemInfo where
  rpm : ℚ
  fpm : ℚ
  hosts : List (String × ServerInfo)
deriving DecidableEq, Repr

/-- A node entry of a stored snapshot: `{name, rpm, fpm}`. -/
structure NodeMetric where
  name : String
  rpm : ℚ
  fpm : ℚ
deriving DecidableEq, Repr

/-- A link entry of a stored snapshot: `{source, target, rpm, fpm}`. -/
structure LinkMetric where
  source : String
  target : String
  rpm : ℚ
  fpm : ℚ
deriving DecidableEq, Repr

/-- A stored snapshot (`SystemStats` model): time plus node and link lists. -/
structure SystemStats where
  time : Int
  nodes : List NodeMetric
  links : List LinkMetric
deriving DecidableEq, Repr

/-- One flattened detail row (`SystemInfoAttribute`).  The `rpm`/`fpm` fields
are copied literally from the leaf (`rpm: info.rpm`), so they stay optional:
an absent leaf field is emitted as `undefined`, i.e. `none`. -/
structure SystemInfoAttribute where
  time : Int
  name : String
  node : String
  source : String
  rpm : Option ℚ
  fpm : Option ℚ
deriving DecidableEq, Repr

/-! ### Ordered association-list maps (JS `Map` / object semantics) -/

/-- First-occurrence lookup, i.e. `Map.get` (JS objects and `Map`s have
unique keys; with unique keys "first" is "the" occurrence). -/
def olookup {α : Type} : List (String × α) → String → Option α
  | [], _ => none
  | (k, v) :: rest, key => if k = key then some v else olookup rest key

/-- The check-then-insert idiom `if (!m.has(k)) m.set(k, d)`: append `(k, d)`
at the end iff `k` is absent (JS `Map.set` appends new keys at the end). -/
def oensure {α : Type} (m : List (String × α)) (k : String) (d : α) :
    List (String × α) :=
  if (olookup m k).isSome then m else m ++ [(k, d)]

/-- In-place mutation of the entry at key `k` (a JS object held in a `Map` is
mutated through the reference, keeping its position). -/
def oupdate {α : Type} : List (String × α) → String → (α → α) → List (String × α)
  | [], _, _ => []
  | (k, v) :: rest, key, f =>
    if k = key then (k, f v) :: rest else (k, v) :: oupdate rest key f

/-! ### Ingestion (`saveSystemStats`) -/

/-- State of the ingestion fold: the `systems` accumulator map, the link list
pushed so far, and the detail rows pushed so far. -/
structure IngestState where
  systems : List (String × SystemInfo)
  links : List LinkMetric
  infos : List SystemInfoAttribute
deriving Repr

/-- State of the inner host loop for one `(system, target)` pair: the target's
host map (mutated in place), the running link sums `rpm`/`fpm`, and the detail
rows. -/
structure HostAcc where
  hosts : List (String × ServerInfo)
  rpm : ℚ
  fpm : ℚ
  infos : List SystemInfoAttribute
deriving Repr

/-- Body of `for (let host in stats[system][target])`: get-or-create the host
bucket, add `info.rpm || 0` / `info.fpm || 0` to it and to the running link
sums, and push the detail row with the literal `info.rpm` / `info.fpm`. -/
def hostStep (time : Int) (system target : String) (acc : HostAcc)
    (entry : String × HostStat) : HostAcc :=
  let host := entry.1
  let info := entry.2
  let hosts := oensure acc.hosts host ⟨0, 0⟩
  let hosts := oupdate hosts host fun sv =>
    ⟨sv.rpm + info.rpm.getD 0, sv.fpm + info.fpm.getD 0⟩
  { hosts := hosts
    rpm := acc.rpm + info.rpm.getD 0
    fpm := acc.fpm + info.fpm.getD 0
    infos := acc.infos ++ [⟨time, target, host, system, info.rpm, info.fpm⟩] }

/-- Body of `for (let target in stats[system])`: get-or-create the target's
accumulator, run the host loop, add the link sums to the target's totals
(only the target accumulates), and push the `LinkMetric`. -/
def targetStep (time : Int) (system : String) (st : IngestState)
    (entry : String × List (String × HostStat)) : IngestState :=
  let target := entry.1
  let systems := oensure st.systems target ⟨0, 0, []⟩
  let targetSystem := (olookup systems target).getD ⟨0, 0, []⟩
  let acc := entry.2.foldl (hostStep time system target)
    ⟨targetSystem.hosts, 0, 0, st.infos⟩
  { systems := oupdate systems target fun s =>
      ⟨s.rpm + acc.rpm, s.fpm + acc.fpm, acc.hosts⟩
    links := st.links ++ [⟨system, target, acc.rpm, acc.fpm⟩]
    infos := acc.infos }

/-- Body of `for (let system in stats)`: get-or-create the source system's
accumulator (zero totals), then process each target.  (The source's
`if (system === undefined) continue` compares a string key against
`undefined` and is never taken.) -/
def systemStep (time : Int) (st : IngestState)
    (entry : String × List (String × List (String × HostStat))) : IngestState :=
  let st' := { st with systems := oensure st.systems entry.1 ⟨0, 0, []⟩ }
  entry.2.foldl (targetStep time entry.1) st'

/-- The whole in-memory fold of `saveSystemStats` over the report. -/
def ingestReport (time : Int) (stats : TrafficReport) : IngestState :=
  stats.foldl (systemStep time) ⟨[], [], []⟩

/-- The pure part of `saveSystemStats`: the snapshot handed to
`systemStatsRepository.saveSystemStats` (nodes emitted by `systems.forEach`
in insertion order) and the detail rows handed to `saveSystemInfo`. -/
def saveSystemStatsPure (time : Int) (stats : TrafficReport) :
    SystemStats × List SystemInfoAttribute :=
  let st := ingestReport time stats
  (⟨time, st.systems.map fun p => ⟨p.1, p.2.rpm, p.2.fpm⟩, st.links⟩, st.infos)

/-- Opaque-to-this-core failure value returned by a collaborator. -/
structure StoreError where
  msg : String
deriving DecidableEq, Repr

/-- One attempted external write of the ingestion sequence. -/
inductive WriteEvent
  | snapshot (s : SystemStats)
  | details (l : List SystemInfoAttribute)
deriving DecidableEq, Repr

/-- The effectful tail of `saveSystemStats`:
`repo.saveSystemStats(snap).then(() => systemInfoService.saveSystemInfo(infos))`.
The collaborators' outcomes are inputs; the result is the settled promise
value together with the ordered trace of attempted writes. -/
def saveSystemStatsRun (time : Int) (stats : TrafficReport)
    (snapResult detailResult : Except StoreError Unit) :
    Except StoreError Unit × List WriteEvent :=
  let pr := saveSystemStatsPure time stats
  match snapResult with
  | .error e => (.error e, [.snapshot pr.1])
  | .ok _ =>
    match detailResult with
    | .error e => (.error e, [.snapshot pr.1, .details pr.2])
    | .ok _ => (.ok (), [.snapshot pr.1, .details pr.2])

/-! ### Query engine (`getSystemStats`) -/

/-- The composite link key `getLinkKey`: `` `${source}-${target}` ``. -/
def getLinkKey (source target : String) : String :=
  source ++ "-" ++ target

/-- The minute-stepped timestamps visited by
`for (let time = begin; time <= end; time += 60)`. -/
def scanTimes (b e : Int) : List Int :=
  (List.range (if e < b then 0 else (e - b).toNat / 60 + 1)).map
    fun i => b + 60 * i

/-- Rounding used by `parseFloat(x.toFixed(3))`: nearest multiple of 1/1000,
ties toward +∞ (`round` is `⌊x + 1/2⌋`). -/
def round3 (q : ℚ) : ℚ :=
  (round (q * 1000) : ℤ) / 1000

/-- The averaging core `calcDataAvg`: walk the window in 60-second steps,
summing and counting the present samples; `0` when none is present, else the
rounded mean. -/
def calcDataAvg (data : Int → Option ℚ) (b e : Int) : ℚ :=
  let acc := (scanTimes b e).foldl
    (fun (p : ℚ × Nat) t =>
      match data t with
      | some v => (p.1 + v, p.2 + 1)
      | none => p)
    (0, 0)
  if acc.2 = 0 then 0 else round3 (acc.1 / (acc.2 : ℚ))

/-- The per-entity pair of time series, one map per property name
(`{"rpm": Map, "fpm": Map}` in the source). -/
structure PropertyLookupMap where
  rpm : Int → Option ℚ
  fpm : Int → Option ℚ

/-- The two metric names used as map keys in the source. -/
inductive Property
  | rpm
  | fpm
deriving DecidableEq, Repr

/-- Index a property-map pair by a property-name key (`m[property]`). -/
def PropertyLookupMap.get (m : PropertyLookupMap) : Property → (Int → Option ℚ)
  | .rpm => m.rpm
  | .fpm => m.fpm

/-- Pair of empty time series. -/
def emptyProps : PropertyLookupMap :=
  ⟨fun _ => none, fun _ => none⟩

/-- Point update of a time series (`map.set(time, value)`). -/
def setSample (f : Int → Option ℚ) (t : Int) (v : ℚ) : Int → Option ℚ :=
  fun t' => if t' = t then some v else f t'

/-- Keyed map of time-series pairs with get-or-create-then-set semantics. -/
def addSample (m : String → Option PropertyLookupMap) (key : String) (t : Int)
    (rpm fpm : ℚ) : String → Option PropertyLookupMap :=
  let cur := (m key).getD emptyProps
  fun k => if k = key then some ⟨setSample cur.rpm t rpm, setSample cur.fpm t fpm⟩ else m k

/-- The `nodeMap` built by scanning every fetched snapshot's nodes. -/
def buildNodeMap (stats : List SystemStats) : String → Option PropertyLookupMap :=
  stats.foldl
    (fun m stat => stat.nodes.foldl
      (fun m node => addSample m node.name stat.time node.rpm node.fpm) m)
    fun _ => none

/-- The `linkMap` built by scanning every fetched snapshot's links, keyed by
`getLinkKey`. -/
def buildLinkMap (stats : List SystemStats) : String → Option PropertyLookupMap :=
  stats.foldl
    (fun m stat => stat.links.foldl
      (fun m link => addSample m (getLinkKey link.source link.target) stat.time link.rpm link.fpm) m)
    fun _ => none

/-- The closure `calcNodeAvg`: window `[latest − minutes·60, latest]` over the
node's series.  (The source indexes `nodeMap.get(node)` unguarded; it is only
ever called on nodes of the latest snapshot, which are present in the map, so
the `getD emptyProps` default is never the taken branch there.) -/
def calcNodeAvg (nodeMap : String → Option PropertyLookupMap) (latest : Int)
    (node : String) (prop : Property) (minutes : Int) : ℚ :=
  calcDataAvg (((nodeMap node).getD emptyProps).get prop) (latest - minutes * 60) latest

/-- The closure `calcLinkAvg`: same, over the link's series under its
composite key. -/
def calcLinkAvg (linkMap : String → Option PropertyLookupMap) (latest : Int)
    (source target : String) (prop : Property) (minutes : Int) : ℚ :=
  calcDataAvg (((linkMap (getLinkKey source target)).getD emptyProps).get prop)
    (latest - minutes * 60) latest

/-- One `[name, rpmTriple, fpmTriple]` row of the dashboard result. -/
structure NodeEntry where
  name : String
  rpm : List ℚ
  fpm : List ℚ
deriving DecidableEq, Repr

/-- One `[source, target, rpmTriple, fpmTriple]` row of the dashboard result. -/
structure LinkEntry where
  source : String
  target : String
  rpm : List ℚ
  fpm : List ℚ
deriving DecidableEq, Repr

/-- The dashboard result (`SystemStatsDto`). -/
structure SystemStatsDto where
  time : Int
  nodes : List NodeEntry
  links : List LinkEntry
deriving DecidableEq, Repr

/-- The query engine `getSystemStats`.  The repository is abstracted by its
two answers: the latest stored time (`none` when the store is empty) and the
range query `rangeQuery begin end`, expected most-recent-first (`stats[0]` is
the latest snapshot). -/
def getSystemStats (latestTime : Option Int)
    (rangeQuery : Int → Int → List SystemStats) : SystemStatsDto :=
  match latestTime with
  | none => ⟨0, [], []⟩
  | some time =>
    match rangeQuery (time - 14 * 60) time with
    | [] => ⟨0, [], []⟩
    | latestStats :: _ =>
      let stats := rangeQuery (time - 14 * 60) time
      let nodeMap := buildNodeMap stats
      let linkMap := buildLinkMap stats
      { time := time
        nodes := latestStats.nodes.map fun node =>
          ⟨node.name,
           [node.rpm, calcNodeAvg nodeMap time node.name .rpm 5,
            calcNodeAvg nodeMap time node.name .rpm 15],
           [node.fpm, calcNodeAvg nodeMap time node.name .fpm 5,
            calcNodeAvg nodeMap time node.name .fpm 15]⟩
        links := latestStats.links.map fun link =>
          ⟨link.source, link.target,
           [link.rpm, calcLinkAvg linkMap time link.source link.target .rpm 5,
            calcLinkAvg linkMap time link.source link.target .rpm 15],
           [link.fpm, calcLinkAvg linkMap time link.source link.target .fpm 5,
            calcLinkAvg linkMap time link.source link.target .fpm 15]⟩ }

/-! ### Missing-field coercion (used to analyse the tolerance policy) -/

/-- Replace each absent leaf field by a literal `0`. -/
def HostStat.fill0 (h : HostStat) : HostStat :=
  ⟨some (h.rpm.getD 0), some (h.fpm.getD 0)⟩

/-- Replace each absent field of a detail row by a literal `0`. -/
def fillRecord (r : SystemInfoAttribute) : SystemInfoAttribute :=
  { r with rpm := some (r.rpm.getD 0), fpm := some (r.fpm.getD 0) }

/-- Apply `HostStat.fill0` to every leaf of a report. -/
def fillReport (r : TrafficReport) : TrafficReport :=
  r.map fun s => (s.1, s.2.map fun t => (t.1, t.2.map fun h => (h.1, h.2.fill0)))

/-- Apply `fillRecord` to the detail rows of a host-loop accumulator. -/
def fillAcc (a : HostAcc) : HostAcc :=
  ⟨a.hosts, a.rpm, a.fpm, a.infos.map fillRecord⟩

/-- Apply `fillRecord` to the detail rows of an ingestion state. -/
def fillState (st : IngestState) : IngestState :=
  ⟨st.systems, st.links, st.infos.map fillRecord⟩

/-! ### Concrete fixtures used by witnesses -/

/-- A concrete time series `{0 ↦ 1, 60 ↦ 2}`. -/
def wSeries : Int → Option ℚ :=
  fun t => if t = 0 then some 1 else if t = 60 then some 2 else none

/-- A concrete node map holding `wSeries` for node `"B"`. -/
def wNodeMap : String → Option PropertyLookupMap :=
  fun k => if k = "B" then some ⟨wSeries, wSeries⟩ else none

/-- A concrete snapshot for query witnesses. -/
def wSnap : SystemStats :=
  ⟨600, [⟨"A", 1, 2⟩], [⟨"A", "B", 3, 4⟩]⟩

/-- A concrete one-leaf report. -/
def wReport : TrafficReport :=
  [("A", [("B", [("h1", ⟨some 10, some 1⟩)])])]

/-- Sum of a projected metric over the links that point at `k`. -/
def linksInto (links : List LinkMetric) (k : String) (f : LinkMetric → ℚ) : ℚ :=
  ((links.filter fun l => l.target = k).map f).sum

/-- Invariant of the ingestion fold: accumulator keys are unique, every
accumulated system's totals equal the sums over the links pushed so far that
target it, and every pushed link's target is an accumulated system. -/
def IngestInv (st : IngestState) : Prop :=
  (st.systems.map Prod.fst).Nodup ∧
  (∀ k v, olookup st.systems k = some v →
    v.rpm = linksInto st.links k LinkMetric.rpm ∧
    v.fpm = linksInto st.links k LinkMetric.fpm) ∧
  (∀ l ∈ st.links, (olookup st.systems l.target).isSome)

/-! ### Ordered-map lemmas -/

theorem olookup_append {α : Type} (m l : List (String × α)) (k : String) :
    olookup (m ++ l) k =
      if (olookup m k).isSome then olookup m k else olookup l k := by
  induction m with
  | nil => simp [olookup]
  | cons p rest ih =>
    obtain ⟨a, v⟩ := p
    by_cases h : a = k <;> simp [olookup, h, ih]

theorem olookup_oensure {α : Type} (m : List (String × α)) (k : String) (d : α)
    (j : String) :
    olookup (oensure m k d) j =
      if j = k then some ((olookup m k).getD d) else olookup m j := by
  unfold oensure
  by_cases hs : (olookup m k).isSome
  · obtain ⟨v, hv⟩ := Option.isSome_iff_exists.mp hs
    by_cases hj : j = k <;> simp [hs, hj, hv]
  · rw [Option.not_isSome_iff_eq_none] at hs
    by_cases hj : j = k
    · subst hj
      simp [hs, olookup_append, olookup]
    · cases h : olookup m j <;>
        simp [hs, hj, olookup_append, olookup, h, Ne.symm hj]

theorem olookup_oupdate {α : Type} (m : List (String × α)) (k : String)
    (f : α → α) (j : String) :
    olookup (oupdate m k f) j =
      if j = k then (olookup m k).map f else olookup m j := by
  induction m with
  | nil => simp [olookup, oupdate]
  | cons p rest ih =>
    obtain ⟨a, v⟩ := p
    by_cases hak : a = k
    · subst hak
      by_cases hj : j = a
      · subst hj
        simp [oupdate, olookup]
      · simp [oupdate, olookup, hj, Ne.symm hj]
    · by_cases haj : a = j
      · subst haj
        simp [oupdate, olookup, hak, ih, fun h : a = k => hak h]
      · simp [oupdate, olookup, hak, haj, ih]

theorem keys_oupdate {α : Type} (m : List (String × α)) (k : String)
    (f : α → α) : (oupdate m k f).map Prod.fst = m.map Prod.fst := by
  induction m with
  | nil => simp [oupdate]
  | cons p rest ih =>
    obtain ⟨a, v⟩ := p
    by_cases h : a = k <;> simp [oupdate, h, ih]

theorem olookup_isSome_iff {α : Type} (m : List (String × α)) (k : String) :
    (olookup m k).isSome ↔ k ∈ m.map Prod.fst := by
  induction m with
  | nil => simp [olookup]
  | cons p rest ih =>
    obtain ⟨a, v⟩ := p
    by_cases h : a = k
    · subst h
      simp [olookup]
    · simp [olookup, h, Ne.symm h, ih]

theorem keys_oensure {α : Type} (m : List (String × α)) (k : String) (d : α) :
    (oensure m k d).map Prod.fst =
      if (olookup m k).isSome then m.map Prod.fst
      else m.map Prod.fst ++ [k] := by
  unfold oensure
  by_cases hs : (olookup m k).isSome <;> simp [hs]

theorem nodupKeys_oensure {α : Type} {m : List (String × α)} {k : String}
    {d : α} (h : (m.map Prod.fst).Nodup) :
    ((oensure m k d).map Prod.fst).Nodup := by
  rw [keys_oensure]
  by_cases hs : (olookup m k).isSome
  · simpa [hs] using h
  · rw [Option.not_isSome_iff_eq_none] at hs
    have hk : k ∉ m.map Prod.fst := by
      rw [← olookup_isSome_iff, hs]
      simp
    simp [hs, List.nodup_append, h, hk]

theorem olookup_of_mem {α : Type} {m : List (String × α)} {k : String} {v : α}
    (hnd : (m.map Prod.fst).Nodup) (hm : (k, v) ∈ m) : olookup m k = some v := by
  induction m with
  | nil => simp at hm
  | cons p rest ih =>
    obtain ⟨a, w⟩ := p
    simp only [List.map_cons, List.nodup_cons] at hnd
    rcases List.mem_cons.mp hm with h | h
    · simp only [Prod.mk.injEq] at h
      obtain ⟨h1, h2⟩ := h
      subst h1
      subst h2
      simp [olookup]
    · have hak : a ≠ k := by
        intro he
        exact hnd.1 (he ▸ (List.mem_map.mpr ⟨(k, v), h, rfl⟩))
      simp [olookup, hak, ih hnd.2 h]

/-! ### Separator splitting (for the link-key analysis) -/

theorem sep_split (a : List Char) : ∀ (c b d : List Char), '-' ∉ a → '-' ∉ c →
    a ++ '-' :: b = c ++ '-' :: d → a = c ∧ b = d := by
  induction a with
  | nil =>
    intro c b d _ hc h
    cases c with
    | nil => simpa using h
    | cons x xs =>
      simp only [List.nil_append, List.cons_append, List.cons.injEq] at h
      have hx : '-' ∈ x :: xs := by
        rw [h.1]
        exact List.mem_cons_self x xs
      exact absurd hx hc
  | cons y ys ih =>
    intro c b d ha hc h
    cases c with
    | nil =>
      simp only [List.cons_append, List.nil_append, List.cons.injEq] at h
      have hy : '-' ∈ y :: ys := by
        rw [← h.1]
        exact List.mem_cons_self y ys
      exact absurd hy ha
    | cons x xs =>
      simp only [List.cons_append, List.cons.injEq] at h
      obtain ⟨hyx, hrest⟩ := h
      have ha' : '-' ∉ ys := fun hm => ha (List.mem_cons_of_mem _ hm)
      have hc' : '-' ∉ xs := fun hm => hc (List.mem_cons_of_mem _ hm)
      obtain ⟨h1, h2⟩ := ih xs b d ha' hc' hrest
      exact ⟨by rw [hyx, h1], h2⟩

/-- C4 counterexample: over unrestricted identifiers the claim is false — the
separator may occur inside an identifier, and then the directed key collides:
`"x" ≠ "x-x"` yet `getLinkKey "x" "x-x" = "x-x-x" = getLinkKey "x-x" "x"`. -/
theorem getLinkKey_collision :
    ("x" : String) ≠ "x-x" ∧ getLinkKey "x" "x-x" = getLinkKey "x-x" "x" := by
  constructor
  · decide
  · rfl

/-- C4 (amended): for identifiers that do not contain the separator `'-'`,
the composite key preserves directionality: `a ≠ b` implies
`getLinkKey a b ≠ getLinkKey b a`. -/
theorem getLinkKey_directional (a b : String) (ha : '-' ∉ a.data)
    (hb : '-' ∉ b.data) (hne : a ≠ b) : getLinkKey a b ≠ getLinkKey b a := by
  intro h
  apply hne
  have hd : a.data ++ '-' :: b.data = b.data ++ '-' :: a.data := by
    have hc := congrArg String.data h
    simpa [getLinkKey, String.data_append] using hc
  exact String.ext (sep_split a.data b.data b.data a.data ha hb hd).1

/-- Witness for `getLinkKey_directional` at `a = "A"`, `b = "B"`. -/
theorem getLinkKey_directional_witness :
    ('-' ∉ ("A" : String).data) ∧ ('-' ∉ ("B" : String).data) ∧
      ("A" : String) ≠ "B" ∧ getLinkKey "A" "B" ≠ getLinkKey "B" "A" :=
  ⟨by decide, by decide, by decide,
    getLinkKey_directional "A" "B" (by decide) (by decide) (by decide)⟩

/-! ### The averaging loop as a sum over present samples -/

theorem foldl_sum_count (data : Int → Option ℚ) (ts : List Int) :
    ∀ (s : ℚ) (c : Nat),
      ts.foldl
        (fun (p : ℚ × Nat) t =>
          match data t with
          | some v => (p.1 + v, p.2 + 1)
          | none => p)
        (s, c)
      = (s + (ts.filterMap data).sum, c + (ts.filterMap data).length) := by
  induction ts with
  | nil =>
    intro s c
    simp
  | cons t rest ih =>
    intro s c
    cases h : data t with
    | none => simp [h, ih]
    | some v =>
      simp only [List.foldl_cons, List.filterMap_cons, h, ih, List.sum_cons,
        List.length_cons, Prod.mk.injEq]
      constructor
      · ring
      · omega

/-- C6: when no scanned timestamp of the window carries a sample,
`calcDataAvg` returns exactly `0`. -/
theorem calcDataAvg_no_samples_zero (data : Int → Option ℚ) (b e : Int)
    (h : ∀ t ∈ scanTimes b e, data t = none) : calcDataAvg data b e = 0 := by
  have hf : (scanTimes b e).filterMap data = [] := List.filterMap_eq_nil_iff.mpr h
  simp only [calcDataAvg, foldl_sum_count, hf]
  simp

/-- Witness for `calcDataAvg_no_samples_zero` on the all-absent series over
`[0, 600]`. -/
theorem calcDataAvg_no_samples_zero_witness :
    (∀ t ∈ scanTimes 0 600, (fun _ : Int => (none : Option ℚ)) t = none) ∧
      calcDataAvg (fun _ => none) 0 600 = 0 :=
  ⟨fun _ _ => rfl, calcDataAvg_no_samples_zero (fun _ => none) 0 600 fun _ _ => rfl⟩

/-- C8: with no stored snapshot (`latestTime` is `none`), and likewise when a
latest time exists but the range fetch returns the empty list, the query
returns exactly `{time: 0, nodes: [], links: []}` as a non-error value. -/
theorem getSystemStats_empty_store (f : Int → Int → List SystemStats) (t : Int) :
    getSystemStats none f = ⟨0, [], []⟩ ∧
      (f (t - 14 * 60) t = [] → getSystemStats (some t) f = ⟨0, [], []⟩) := by
  refine ⟨rfl, fun h => ?_⟩
  simp only [getSystemStats]
  rw [h]

/-- Witness for `getSystemStats_empty_store` on the constantly-empty store. -/
theorem getSystemStats_empty_store_witness :
    getSystemStats none (fun _ _ => ([] : List SystemStats)) = ⟨0, [], []⟩ ∧
      getSystemStats (some 0) (fun _ _ => ([] : List SystemStats)) = ⟨0, [], []⟩ :=
  ⟨(getSystemStats_empty_store (fun _ _ => []) 0).1,
    (getSystemStats_empty_store (fun _ _ => []) 0).2 rfl⟩

/-- C9: the ingestion sequence writes the snapshot first; the detail write is
attempted only after the snapshot write succeeded; the call reports success
iff both writes succeed; and a failing detail write leaves the committed
snapshot write in the trace (no rollback). -/
theorem saveSystemStatsRun_write_order (time : Int) (stats : TrafficReport)
    (e e' : StoreError) (d : Except StoreError Unit) :
    saveSystemStatsRun time stats (.ok ()) (.ok ()) =
      (.ok (), [.snapshot (saveSystemStatsPure time stats).1,
                .details (saveSystemStatsPure time stats).2]) ∧
    saveSystemStatsRun time stats (.ok ()) (.error e) =
      (.error e, [.snapshot (saveSystemStatsPure time stats).1,
                  .details (saveSystemStatsPure time stats).2]) ∧
    saveSystemStatsRun time stats (.error e') d =
      (.error e', [.snapshot (saveSystemStatsPure time stats).1]) :=
  ⟨rfl, rfl, rfl⟩

/-- C10: an empty report yields the empty snapshot `{time: t, nodes: [],
links: []}`, and both writes still occur — the detail write with the empty
list. -/
theorem saveSystemStats_empty_report (t : Int) :
    saveSystemStatsPure t [] = (⟨t, [], []⟩, []) ∧
      saveSystemStatsRun t [] (.ok ()) (.ok ()) =
        (.ok (), [.snapshot ⟨t, [], []⟩, .details []]) :=
  ⟨rfl, rfl⟩

/-- C1: ingesting `{A: {B: {h1: {rpm:10, fpm:1}}}}` at time 600 persists
exactly the snapshot `{time:600, nodes:[{A,0,0},{B,10,1}], links:[{A,B,10,1}]}`
(nodes in first-encounter order `A`, `B`) and exactly one detail record
`{time:600, name:B, node:h1, source:A, rpm:10, fpm:1}`. -/
theorem saveSystemStats_end_to_end :
    saveSystemStatsRun 600 [("A", [("B", [("h1", ⟨some 10, some 1⟩)])])]
        (.ok ()) (.ok ()) =
      (.ok (),
       [.snapshot ⟨600, [⟨"A", 0, 0⟩, ⟨"B", 10, 1⟩], [⟨"A", "B", 10, 1⟩]⟩,
        .details [⟨600, "B", "h1", "A", some 10, some 1⟩]]) := by
  simp [saveSystemStatsRun, saveSystemStatsPure, ingestReport, systemStep,
    targetStep, hostStep, oensure, oupdate, olookup]

/-- C5: for every entity time series, metric and horizon `m > 0`, the computed
average is the sum of the series values present at `begin, begin+60, …, end`
(`begin = latest − m·60`, `end = latest`) divided by the number of present
timestamps, rounded to exactly three decimal places. -/
theorem calcNodeAvg_window_mean (nodeMap : String → Option PropertyLookupMap)
    (latest : Int) (node : String) (prop : Property) (m : Int) (hm : 0 < m)
    (hne : (scanTimes (latest - m * 60) latest).filterMap
        (((nodeMap node).getD emptyProps).get prop) ≠ []) :
    calcNodeAvg nodeMap latest node prop m =
      round3
        ((((scanTimes (latest - m * 60) latest).filterMap
            (((nodeMap node).getD emptyProps).get prop)).sum) /
         (((scanTimes (latest - m * 60) latest).filterMap
            (((nodeMap node).getD emptyProps).get prop)).length)) := by
  have hlen :
      ((scanTimes (latest - m * 60) latest).filterMap
        (((nodeMap node).getD emptyProps).get prop)).length ≠ 0 := by
    simpa [List.length_eq_zero] using hne
  simp only [calcNodeAvg, calcDataAvg, foldl_sum_count, zero_add]
  simp [hlen]

/-- Witness for `calcNodeAvg_window_mean`: the series `{0 ↦ 1, 60 ↦ 2}` over
a one-minute window ending at 60 averages to `1.5`. -/
theorem calcNodeAvg_window_mean_witness :
    (0 : Int) < 1 ∧
      (scanTimes (60 - 1 * 60) 60).filterMap
        (((wNodeMap "B").getD emptyProps).get .rpm) ≠ [] ∧
      calcNodeAvg wNodeMap 60 "B" .rpm 1 = 3 / 2 := by
  have hne : (scanTimes (60 - 1 * 60) 60).filterMap
      (((wNodeMap "B").getD emptyProps).get .rpm) ≠ [] := by
    simp [scanTimes, wNodeMap, wSeries, emptyProps, PropertyLookupMap.get,
      List.range_succ]
  refine ⟨by norm_num, hne, ?_⟩
  rw [calcNodeAvg_window_mean wNodeMap 60 "B" .rpm 1 (by norm_num) hne]
  simp [scanTimes, wNodeMap, wSeries, emptyProps, PropertyLookupMap.get,
    List.range_succ, round3]
  norm_num [round_eq]

/-- C7: when the fetched window is non-empty, the reported time is the latest
time, and the result rows are exactly the entities of the latest snapshot in
its order, each carrying as the first (horizon-0) entry of its triple the
literal rpm/fpm value of the latest snapshot — no averaging, no rounding. -/
theorem getSystemStats_latest_snapshot_instant (t : Int)
    (f : Int → Int → List SystemStats) (latest : SystemStats)
    (rest : List SystemStats) (h : f (t - 14 * 60) t = latest :: rest) :
    (getSystemStats (some t) f).time = t ∧
      (getSystemStats (some t) f).nodes.map
          (fun e => (e.name, e.rpm.head?, e.fpm.head?)) =
        latest.nodes.map (fun n => (n.name, some n.rpm, some n.fpm)) ∧
      (getSystemStats (some t) f).links.map
          (fun e => (e.source, e.target, e.rpm.head?, e.fpm.head?)) =
        latest.links.map (fun l => (l.source, l.target, some l.rpm, some l.fpm)) := by
  simp only [getSystemStats]
  rw [h]
  refine ⟨rfl, ?_, ?_⟩ <;> simp [List.map_map]

/-- Witness for `getSystemStats_latest_snapshot_instant` on a store holding
the single snapshot `wSnap`. -/
theorem getSystemStats_latest_snapshot_instant_witness :
    ((fun _ _ => [wSnap]) ((600 : Int) - 14 * 60) 600 = wSnap :: []) ∧
      (getSystemStats (some 600) (fun _ _ => [wSnap])).time = 600 ∧
      (getSystemStats (some 600) (fun _ _ => [wSnap])).nodes.map
          (fun e => (e.name, e.rpm.head?, e.fpm.head?)) =
        wSnap.nodes.map (fun n => (n.name, some n.rpm, some n.fpm)) ∧
      (getSystemStats (some 600) (fun _ _ => [wSnap])).links.map
          (fun e => (e.source, e.target, e.rpm.head?, e.fpm.head?)) =
        wSnap.links.map (fun l => (l.source, l.target, some l.rpm, some l.fpm)) :=
  ⟨rfl, (getSystemStats_latest_snapshot_instant 600 (fun _ _ => [wSnap])
    wSnap [] rfl).1,
   (getSystemStats_latest_snapshot_instant 600 (fun _ _ => [wSnap])
    wSnap [] rfl).2.1,
   (getSystemStats_latest_snapshot_instant 600 (fun _ _ => [wSnap])
    wSnap [] rfl).2.2⟩

/-! ### Node-accumulation invariant of the ingestion fold -/

theorem linksInto_append (links : List LinkMetric) (l : LinkMetric)
    (k : String) (f : LinkMetric → ℚ) :
    linksInto (links ++ [l]) k f =
      linksInto links k f + (if l.target = k then f l else 0) := by
  simp only [linksInto, List.filter_append]
  by_cases h : l.target = k <;>
    simp [List.filter_cons, h]

theorem linksInto_of_absent {st : IngestState} (h : IngestInv st) {k : String}
    (hk : olookup st.systems k = none) (f : LinkMetric → ℚ) :
    linksInto st.links k f = 0 := by
  have hfilter : st.links.filter (fun l => l.target = k) = [] := by
    rw [List.filter_eq_nil_iff]
    intro l hl hdec
    have hs := h.2.2 l hl
    rw [decide_eq_true_eq] at hdec
    rw [hdec, hk] at hs
    simp at hs
  simp [linksInto, hfilter]

theorem ingestInv_oensure {st : IngestState} (k : String) (h : IngestInv st) :
    IngestInv ⟨oensure st.systems k ⟨0, 0, []⟩, st.links, st.infos⟩ := by
  obtain ⟨hnd, hsum, htgt⟩ := h
  refine ⟨nodupKeys_oensure hnd, ?_, ?_⟩
  · intro j v hj
    rw [olookup_oensure] at hj
    by_cases hjk : j = k
    · subst hjk
      rw [if_pos rfl] at hj
      cases hv : olookup st.systems j with
      | some w =>
        rw [hv] at hj
        simp only [Option.getD_some, Option.some.injEq] at hj
        exact hj ▸ hsum j w hv
      | none =>
        rw [hv] at hj
        simp only [Option.getD_none, Option.some.injEq] at hj
        have hz := linksInto_of_absent ⟨hnd, hsum, htgt⟩ hv
        rw [← hj]
        exact ⟨(hz LinkMetric.rpm).symm, (hz LinkMetric.fpm).symm⟩
    · rw [if_neg hjk] at hj
      exact hsum j v hj
  · intro l hl
    rw [olookup_oensure]
    by_cases hjk : l.target = k
    · simp [hjk]
    · simpa [hjk] using htgt l hl

theorem ingestInv_pushLink (st : IngestState) (h : IngestInv st)
    (system target : String) (r f : ℚ) (hosts' : List (String × ServerInfo))
    (infos' : List SystemInfoAttribute) :
    IngestInv
      ⟨oupdate (oensure st.systems target ⟨0, 0, []⟩) target
         (fun s => ⟨s.rpm + r, s.fpm + f, hosts'⟩),
       st.links ++ [⟨system, target, r, f⟩], infos'⟩ := by
  obtain ⟨hnd, hsum, htgt⟩ := h
  refine ⟨?_, ?_, ?_⟩
  · rw [keys_oupdate]
    exact nodupKeys_oensure hnd
  · intro j v hj
    rw [olookup_oupdate, olookup_oensure] at hj
    by_cases hjk : j = target
    · subst hjk
      rw [if_pos rfl, if_pos rfl] at hj
      simp only [Option.map_some', Option.some.injEq] at hj
      rw [← hj, linksInto_append, linksInto_append]
      simp only [if_pos rfl]
      cases hv : olookup st.systems j with
      | some w =>
        obtain ⟨h1, h2⟩ := hsum j w hv
        simp [h1, h2]
      | none =>
        have hz := linksInto_of_absent ⟨hnd, hsum, htgt⟩ hv
        simp [hz LinkMetric.rpm, hz LinkMetric.fpm]
    · rw [if_neg hjk] at hj
      rw [olookup_oensure, if_neg hjk] at hj
      simpa [linksInto_append, Ne.symm hjk] using hsum j v hj
  · intro l hl
    rw [olookup_oupdate]
    rcases List.mem_append.mp hl with hold | hnew
    · by_cases h1 : l.target = target
      · simp [h1, olookup_oensure]
      · rw [if_neg h1, olookup_oensure, if_neg h1]
        exact htgt l hold
    · simp only [List.mem_singleton] at hnew
      subst hnew
      simp [olookup_oensure]

theorem ingestInv_targetStep (time : Int) (system : String) (st : IngestState)
    (entry : String × List (String × HostStat)) (h : IngestInv st) :
    IngestInv (targetStep time system st entry) := by
  have hp := ingestInv_pushLink st h system entry.1
    (entry.2.foldl (hostStep time system entry.1)
      ⟨((olookup (oensure st.systems entry.1 ⟨0, 0, []⟩) entry.1).getD
          ⟨0, 0, []⟩).hosts, 0, 0, st.infos⟩).rpm
    (entry.2.foldl (hostStep time system entry.1)
      ⟨((olookup (oensure st.systems entry.1 ⟨0, 0, []⟩) entry.1).getD
          ⟨0, 0, []⟩).hosts, 0, 0, st.infos⟩).fpm
    (entry.2.foldl (hostStep time system entry.1)
      ⟨((olookup (oensure st.systems entry.1 ⟨0, 0, []⟩) entry.1).getD
          ⟨0, 0, []⟩).hosts, 0, 0, st.infos⟩).hosts
    (entry.2.foldl (hostStep time system entry.1)
      ⟨((olookup (oensure st.systems entry.1 ⟨0, 0, []⟩) entry.1).getD
          ⟨0, 0, []⟩).hosts, 0, 0, st.infos⟩).infos
  exact hp

theorem ingestInv_foldl_targetStep (time : Int) (system : String)
    (targets : List (String × List (String × HostStat))) :
    ∀ st : IngestState, IngestInv st →
      IngestInv (targets.foldl (targetStep time system) st) := by
  induction targets with
  | nil => exact fun st h => h
  | cons e rest ih =>
    intro st h
    exact ih _ (ingestInv_targetStep time system st e h)

theorem ingestInv_systemStep (time : Int) (st : IngestState)
    (entry : String × List (String × List (String × HostStat)))
    (h : IngestInv st) : IngestInv (systemStep time st entry) :=
  ingestInv_foldl_targetStep time entry.1 entry.2 _ (ingestInv_oensure entry.1 h)

theorem ingestInv_ingestReport (time : Int) (r : TrafficReport) :
    IngestInv (ingestReport time r) := by
  have step : ∀ st : IngestState, IngestInv st →
      IngestInv (List.foldl (systemStep time) st r) := by
    induction r with
    | nil => exact fun st h => h
    | cons e rest ih =>
      intro st h
      exact ih _ (ingestInv_systemStep time st e h)
  exact step ⟨[], [], []⟩ ⟨by simp, by intro k v hv; simp [olookup] at hv, by simp⟩

/-- C2: in every snapshot produced by ingestion, each node's `rpm` (resp.
`fpm`) equals the sum of `rpm` (resp. `fpm`) over the links of the same
snapshot whose target is that node's name; in particular a system appearing
only as a link source (no inbound link) keeps totals `0`, the empty sum. -/
theorem saveSystemStats_node_accumulation (time : Int) (r : TrafficReport)
    (nm : NodeMetric) (hmem : nm ∈ (saveSystemStatsPure time r).1.nodes) :
    nm.rpm = linksInto (saveSystemStatsPure time r).1.links nm.name LinkMetric.rpm ∧
      nm.fpm = linksInto (saveSystemStatsPure time r).1.links nm.name LinkMetric.fpm := by
  obtain ⟨hnd, hsum, _⟩ := ingestInv_ingestReport time r
  simp only [saveSystemStatsPure] at hmem ⊢
  obtain ⟨p, hp, hpe⟩ := List.mem_map.mp hmem
  have hol : olookup (ingestReport time r).systems p.1 = some p.2 :=
    olookup_of_mem hnd (by simpa using hp)
  obtain ⟨h1, h2⟩ := hsum p.1 p.2 hol
  rw [← hpe]
  exact ⟨h1, h2⟩

/-- Witness for `saveSystemStats_node_accumulation`: in the snapshot of the
one-leaf report `wReport`, node `B`'s totals `(10, 1)` equal the sums over
the single link `A→B`. -/
theorem saveSystemStats_node_accumulation_witness :
    (⟨"B", 10, 1⟩ : NodeMetric) ∈ (saveSystemStatsPure 600 wReport).1.nodes ∧
      (⟨"B", 10, 1⟩ : NodeMetric).rpm =
        linksInto (saveSystemStatsPure 600 wReport).1.links "B" LinkMetric.rpm ∧
      (⟨"B", 10, 1⟩ : NodeMetric).fpm =
        linksInto (saveSystemStatsPure 600 wReport).1.links "B" LinkMetric.fpm := by
  have hmem : (⟨"B", 10, 1⟩ : NodeMetric) ∈ (saveSystemStatsPure 600 wReport).1.nodes := by
    simp [wReport, saveSystemStatsPure, ingestReport, systemStep, targetStep,
      hostStep, oensure, oupdate, olookup]
  exact ⟨hmem, saveSystemStats_node_accumulation 600 wReport ⟨"B", 10, 1⟩ hmem⟩

/-! ### Missing-field tolerance -/

/-- C3 counterexample: on the report `{A: {B: {h1: {rpm:10}}}}` (no `fpm`),
the emitted detail record carries `fpm = undefined` (`none`) — the source
writes `fpm: info.fpm` without the `|| 0` coercion — so the claim that `0` is
written for the missing field in the detail record is false. -/
theorem detail_missing_field_counterexample :
    (saveSystemStatsPure 600 [("A", [("B", [("h1", ⟨some 10, none⟩)])])]).2 =
      [⟨600, "B", "h1", "A", some 10, none⟩] ∧
      (none : Option ℚ) ≠ some 0 := by
  constructor
  · simp [saveSystemStatsPure, ingestReport, systemStep, targetStep, hostStep,
      oensure, oupdate, olookup]
  · simp

theorem hostStep_fill (time : Int) (system target : String)
    (h0 : List (String × ServerInfo)) (r0 f0 : ℚ)
    (infos : List SystemInfoAttribute) (e : String × HostStat) :
    hostStep time system target ⟨h0, r0, f0, infos.map fillRecord⟩
        (e.1, e.2.fill0) =
      ⟨(hostStep time system target ⟨h0, r0, f0, infos⟩ e).hosts,
       (hostStep time system target ⟨h0, r0, f0, infos⟩ e).rpm,
       (hostStep time system target ⟨h0, r0, f0, infos⟩ e).fpm,
       (hostStep time system target ⟨h0, r0, f0, infos⟩ e).infos.map fillRecord⟩ := by
  simp [hostStep, HostStat.fill0, fillRecord]

theorem foldl_hostStep_fill (time : Int) (system target : String)
    (hosts : List (String × HostStat)) :
    ∀ (h0 : List (String × ServerInfo)) (r0 f0 : ℚ)
      (infos : List SystemInfoAttribute),
      (hosts.map fun h => (h.1, h.2.fill0)).foldl (hostStep time system target)
          ⟨h0, r0, f0, infos.map fillRecord⟩
        = ⟨(hosts.foldl (hostStep time system target) ⟨h0, r0, f0, infos⟩).hosts,
           (hosts.foldl (hostStep time system target) ⟨h0, r0, f0, infos⟩).rpm,
           (hosts.foldl (hostStep time system target) ⟨h0, r0, f0, infos⟩).fpm,
           (hosts.foldl (hostStep time system target)
             ⟨h0, r0, f0, infos⟩).infos.map fillRecord⟩ := by
  induction hosts with
  | nil => intros; rfl
  | cons e rest ih =>
    intro h0 r0 f0 infos
    simp only [List.map_cons, List.foldl_cons, hostStep_fill]
    exact ih _ _ _ _

theorem targetStep_fill (time : Int) (system : String)
    (systems : List (String × SystemInfo)) (links : List LinkMetric)
    (infos : List SystemInfoAttribute) (e : String × List (String × HostStat)) :
    targetStep time system ⟨systems, links, infos.map fillRecord⟩
        (e.1, e.2.map fun h => (h.1, h.2.fill0)) =
      ⟨(targetStep time system ⟨systems, links, infos⟩ e).systems,
       (targetStep time system ⟨systems, links, infos⟩ e).links,
       (targetStep time system ⟨systems, links, infos⟩ e).infos.map fillRecord⟩ := by
  simp only [targetStep, foldl_hostStep_fill]

theorem foldl_targetStep_fill (time : Int) (system : String)
    (targets : List (String × List (String × HostStat))) :
    ∀ (systems : List (String × SystemInfo)) (links : List LinkMetric)
      (infos : List SystemInfoAttribute),
      (targets.map fun t => (t.1, t.2.map fun h => (h.1, h.2.fill0))).foldl
          (targetStep time system) ⟨systems, links, infos.map fillRecord⟩
        = ⟨(targets.foldl (targetStep time system)
              ⟨systems, links, infos⟩).systems,
           (targets.foldl (targetStep time system) ⟨systems, links, infos⟩).links,
           (targets.foldl (targetStep time system)
             ⟨systems, links, infos⟩).infos.map fillRecord⟩ := by
  induction targets with
  | nil => intros; rfl
  | cons e rest ih =>
    intro systems links infos
    simp only [List.map_cons, List.foldl_cons, targetStep_fill]
    exact ih _ _ _

theorem systemStep_fill (time : Int) (systems : List (String × SystemInfo))
    (links : List LinkMetric) (infos : List SystemInfoAttribute)
    (e : String × List (String × List (String × HostStat))) :
    systemStep time ⟨systems, links, infos.map fillRecord⟩
        (e.1, e.2.map fun t => (t.1, t.2.map fun h => (h.1, h.2.fill0))) =
      ⟨(systemStep time ⟨systems, links, infos⟩ e).systems,
       (systemStep time ⟨systems, links, infos⟩ e).links,
       (systemStep time ⟨systems, links, infos⟩ e).infos.map fillRecord⟩ := by
  simp only [systemStep]
  exact foldl_targetStep_fill time e.1 e.2 _ _ _

theorem foldl_systemStep_fill (time : Int) (r : TrafficReport) :
    ∀ (systems : List (String × SystemInfo)) (links : List LinkMetric)
      (infos : List SystemInfoAttribute),
      (fillReport r).foldl (systemStep time) ⟨systems, links, infos.map fillRecord⟩
        = ⟨(r.foldl (systemStep time) ⟨systems, links, infos⟩).systems,
           (r.foldl (systemStep time) ⟨systems, links, infos⟩).links,
           (r.foldl (systemStep time)
             ⟨systems, links, infos⟩).infos.map fillRecord⟩ := by
  induction r with
  | nil => intros; rfl
  | cons e rest ih =>
    intro systems links infos
    simp only [fillReport, List.map_cons, List.foldl_cons, systemStep_fill]
    exact ih _ _ _

/-- C3 (amended): a leaf field that is absent contributes `0` to every
accumulation — replacing every absent `rpm`/`fpm` by a literal `0` leaves the
whole accumulator state (host buckets, link sums, node totals) and hence the
persisted snapshot unchanged — and ingestion is total (never fails); but the
emitted detail record carries the absent field as `undefined` (`none`), not
as `0`: the original report's rows are the unfilled versions of the filled
report's rows. -/
theorem ingest_missing_field_as_zero (time : Int) (r : TrafficReport) :
    ingestReport time (fillReport r) =
      ⟨(ingestReport time r).systems, (ingestReport time r).links,
       (ingestReport time r).infos.map fillRecord⟩ ∧
      saveSystemStatsPure time (fillReport r) =
        ((saveSystemStatsPure time r).1,
         (saveSystemStatsPure time r).2.map fillRecord) := by
  have h : ingestReport time (fillReport r) =
      ⟨(ingestReport time r).systems, (ingestReport time r).links,
       (ingestReport time r).infos.map fillRecord⟩ := by
    have := foldl_systemStep_fill time r [] [] []
    simpa [ingestReport] using this
  refine ⟨h, ?_⟩
  simp only [saveSystemStatsPure, h]

end Overwatch
